import Mathlib

/-!
Shallow embedding of the two source units of this repository:
  src/base/atomic-utils.h   (atomic cells, bit sets, type-erased accessors)
  src/heap/objects-visiting.h (visitor ids, dispatch table, body visitors)

Machine integers: the C++ storage type is a word of some fixed bit width
(base::AtomicWord, base::Atomic32, or a user type T no wider than these).
Values are modelled as Nat together with an explicit width parameter w where
the bitwise complement matters: the C++ expression ~mask over a w-bit word is
modelled as (2 ^ w - 1) ^^^ mask. The reinterpret casts of the sources
(cast_helper, reinterpret_cast between Callback and AtomicWord) are value
preserving round trips, modelled as the identity.

Sequential semantics: each compare-and-swap retry loop of the sources is
modelled as a fuel indexed loop returning none when the fuel runs out; in the
single-thread model the CAS of a freshly loaded value always succeeds, which
the theorems make explicit.
-/

namespace V8

/-! ## src/base/atomic-utils.h -/

/-- AtomicNumber from atomic-utils.h lines 17-55: one base::AtomicWord cell.
The default constructor is value_(0). -/
structure AtomicNumber where
  value_ : Nat

/-- AtomicNumber() : value_(0) (line 20). -/
def AtomicNumber.mkDefault : AtomicNumber := ⟨0⟩

/-- AtomicNumber::Value (lines 35-37): Acquire_Load of the cell, the cast is
the identity on values. -/
def AtomicNumber.Value (a : AtomicNumber) : Nat := a.value_

/-- NoBarrierAtomicValue from atomic-utils.h lines 59-110. -/
structure NoBarrierAtomicValue where
  value_ : Nat

/-- NoBarrierAtomicValue() : value_(0) (line 62). -/
def NoBarrierAtomicValue.mkDefault : NoBarrierAtomicValue := ⟨0⟩

/-- NoBarrierAtomicValue::Value (lines 78-80): Relaxed_Load then
cast_helper::to_return_type, the identity on values. -/
def NoBarrierAtomicValue.Value (a : NoBarrierAtomicValue) : Nat := a.value_

/-- AtomicValue from atomic-utils.h lines 113-176: one base::AtomicWord cell
accessed with acquire loads and release stores. -/
structure AtomicValue where
  value_ : Nat
deriving DecidableEq

/-- AtomicValue() : value_(0) (line 116). -/
def AtomicValue.mkDefault : AtomicValue := ⟨0⟩

/-- AtomicValue::Value (lines 121-123): Acquire_Load then
cast_helper::to_return_type, the identity on values. -/
def AtomicValue.Value (a : AtomicValue) : Nat := a.value_

/-- AtomicValue::TrySetValue (lines 125-130): Release_CompareAndSwap returns
the previous cell contents; the call succeeds exactly when that equals
old_value, and on success the cell now holds new_value. -/
def AtomicValue.TrySetValue (a : AtomicValue) (old_value new_value : Nat) :
    Bool × AtomicValue :=
  if a.value_ = old_value then (true, ⟨new_value⟩) else (false, a)

/-- AtomicValue::SetBits (lines 132-140) over a w-bit value type T:
repeatedly read the current value, compute (old_value & ~mask) | bits, and
retry the compare-and-swap until it succeeds. The C++ ~mask over the w-bit
type T is (2 ^ w - 1) ^^^ mask. Fuel bounds the retries; none means the fuel
ran out before a CAS succeeded. -/
def AtomicValue.SetBits (w bits mask : Nat) :
    Nat → AtomicValue → Option AtomicValue
  | 0, _ => none
  | fuel + 1, a =>
    let old_value := a.Value
    let new_value := (old_value &&& ((2 ^ w - 1) ^^^ mask)) ||| bits
    let r := a.TrySetValue old_value new_value
    if r.1 then some r.2 else AtomicValue.SetBits w bits mask fuel r.2

/-- AtomicEnumSet from atomic-utils.h lines 186-252: a bit set over an
enumeration, stored in one base::AtomicWord. Enumerators are modelled as
their Nat values. -/
structure AtomicEnumSet where
  bits_ : Nat
deriving DecidableEq

/-- AtomicEnumSet(base::AtomicWord bits = 0) (line 189) at the default
argument. -/
def AtomicEnumSet.mkDefault : AtomicEnumSet := ⟨0⟩

/-- AtomicEnumSet::ToIntegral (lines 243-245): Acquire_Load of the word. -/
def AtomicEnumSet.ToIntegral (s : AtomicEnumSet) : Nat := s.bits_

/-- AtomicEnumSet::Mask (lines 247-249): static_cast<AtomicWord>(1) <<
element. -/
def AtomicEnumSet.Mask (element : Nat) : Nat := 1 <<< element

/-- AtomicEnumSet::IsEmpty (line 191). -/
def AtomicEnumSet.IsEmpty (s : AtomicEnumSet) : Bool := s.ToIntegral == 0

/-- AtomicEnumSet::Contains (line 193). -/
def AtomicEnumSet.Contains (s : AtomicEnumSet) (element : Nat) : Bool :=
  (s.ToIntegral &&& AtomicEnumSet.Mask element) != 0

/-- The ATOMIC_SET_WRITE macro (lines 214-221): Acquire_Load the word, then
Release_CompareAndSwap it against old OP NEW_VAL, retrying until the CAS
reports the loaded value. f is the function old fun maps to old OP NEW_VAL.
Fuel bounds the retries. -/
def AtomicEnumSet.AtomicSetWrite (f : Nat → Nat) :
    Nat → AtomicEnumSet → Option AtomicEnumSet
  | 0, _ => none
  | fuel + 1, s =>
    let old := s.ToIntegral
    if s.bits_ = old then some ⟨f old⟩
    else AtomicEnumSet.AtomicSetWrite f fuel s

/-- AtomicEnumSet::Add(E element) (line 223): ATOMIC_SET_WRITE(|,
Mask(element)). -/
def AtomicEnumSet.Add (s : AtomicEnumSet) (element : Nat) (fuel : Nat) :
    Option AtomicEnumSet :=
  AtomicEnumSet.AtomicSetWrite (fun old => old ||| AtomicEnumSet.Mask element)
    fuel s

/-- AtomicEnumSet::Remove(E element) (line 227): ATOMIC_SET_WRITE(&,
~Mask(element)); the complement is over the w-bit AtomicWord. -/
def AtomicEnumSet.Remove (s : AtomicEnumSet) (w element : Nat) (fuel : Nat) :
    Option AtomicEnumSet :=
  AtomicEnumSet.AtomicSetWrite
    (fun old => old &&& ((2 ^ w - 1) ^^^ AtomicEnumSet.Mask element)) fuel s

/-- AsAtomic32::SetBits (atomic-utils.h lines 294-306) acting on a w-bit
typed location holding v: Relaxed_Load the old value; if (old_value & mask)
== bits return false without any write; otherwise compute (old_value & ~mask)
| bits and Release_CompareAndSwap, retrying the whole loop until the CAS
succeeds, then return true. The result pairs the returned Bool with the final
contents of the location. -/
def AsAtomic32.SetBits (w bits mask : Nat) : Nat → Nat → Option (Bool × Nat)
  | 0, _ => none
  | fuel + 1, v =>
    let old_value := v
    if (old_value &&& mask) = bits then some (false, v)
    else
      let new_value := (old_value &&& ((2 ^ w - 1) ^^^ mask)) ||| bits
      if v = old_value then some (true, new_value)
      else AsAtomic32.SetBits w bits mask fuel v

/-! ## src/heap/objects-visiting.h -/

/-- kVisitorIdCount from objects-visiting.h lines 74-79: the VisitorId enum
lists 35 enumerators (AllocationSite, ByteArray, BytecodeArray, Cell, Code,
ConsString, DataObject, FixedArray, FixedDoubleArray, FixedFloat64Array,
FixedTypedArrayBase, FreeSpace, JSApiObject, JSArrayBuffer, JSFunction,
JSObject, JSObjectFast, JSRegExp, JSWeakCollection, Map, NativeContext,
Oddball, PropertyCell, SeqOneByteString, SeqTwoByteString,
SharedFunctionInfo, ShortcutCandidate, SlicedString, SmallOrderedHashMap,
SmallOrderedHashSet, Struct, Symbol, ThinString, TransitionArray, WeakCell),
so kVisitorIdCount = 35. -/
def kVisitorIdCount : Nat := 35

/-- A VisitorId is an index in [0, kVisitorIdCount). -/
abbrev VisitorId := Fin kVisitorIdCount

/-- VisitorDispatchTable from objects-visiting.h lines 97-122: an array of
kVisitorIdCount base::AtomicWord slots. The reinterpret casts between
Callback and AtomicWord round trip, so the slots are modelled at the Callback
type directly. -/
structure VisitorDispatchTable (Callback : Type) where
  callbacks_ : VisitorId → Callback

/-- One iteration of the CopyFrom loop body (line 105):
base::Relaxed_Store(&callbacks_[i], other->callbacks_[i]) on the destination
table. -/
def VisitorDispatchTable.RelaxedStoreSlot {Callback : Type}
    (t : VisitorDispatchTable Callback) (i : VisitorId) (v : Callback) :
    VisitorDispatchTable Callback :=
  ⟨Function.update t.callbacks_ i v⟩

/-- VisitorDispatchTable::CopyFrom (lines 100-107): for i in
[0, kVisitorIdCount), Relaxed_Store each slot of the destination from the
same slot of other, one element at a time (deliberately not memcpy). -/
def VisitorDispatchTable.CopyFrom {Callback : Type}
    (t other : VisitorDispatchTable Callback) : VisitorDispatchTable Callback :=
  (List.finRange kVisitorIdCount).foldl
    (fun acc i => acc.RelaxedStoreSlot i (other.callbacks_ i)) t

/-- VisitorDispatchTable::GetVisitorById (lines 111-113):
reinterpret_cast<Callback>(callbacks_[id]), the cast being the identity. -/
def VisitorDispatchTable.GetVisitorById {Callback : Type}
    (t : VisitorDispatchTable Callback) (id : VisitorId) : Callback :=
  t.callbacks_ id

/-- VisitorDispatchTable::Register (lines 115-118): callbacks_[id] =
reinterpret_cast<base::AtomicWord>(callback). -/
def VisitorDispatchTable.Register {Callback : Type}
    (t : VisitorDispatchTable Callback) (id : VisitorId) (callback : Callback) :
    VisitorDispatchTable Callback :=
  ⟨Function.update t.callbacks_ id callback⟩

/-- Outcome of invoking a visit callback: UNREACHABLE() terminates the
process (fatal), otherwise the callback returns a size. -/
inductive VisitOutcome
  | fatal
  | ok (size : Int)
deriving DecidableEq

/-- StaticNewSpaceVisitor::UnreachableVisitor (objects-visiting.h lines
184-186): its whole body is UNREACHABLE(), so every invocation is a fatal
process-terminating fault and no invocation returns a size. -/
def StaticNewSpaceVisitor.UnreachableVisitor {Map HeapObject : Type} :
    Map → HeapObject → VisitOutcome :=
  fun _ _ => VisitOutcome.fatal

/-- FlexibleBodyVisitor over a BodyDescriptor (objects-visiting.h lines
125-133). The descriptor supplies SizeOf(map, object) and
IterateBody(object, size); IterateBody returns void in the source, so its
observable effect (the slot visits it performs) is modelled as a value of an
abstract Trace type. -/
structure FlexibleBodyDescriptor (Map HeapObject Trace : Type) where
  SizeOf : Map → HeapObject → Int
  IterateBody : HeapObject → Int → Trace

/-- FlexibleBodyVisitor::Visit (lines 128-132): int object_size =
BodyDescriptor::SizeOf(map, object); BodyDescriptor::IterateBody(object,
object_size); return static_cast<ReturnType>(object_size). The result pairs
the effect of the one IterateBody call with the returned size; the
static_cast is the identity with ReturnType = int. -/
def FlexibleBodyVisitor.Visit {Map HeapObject Trace : Type}
    (D : FlexibleBodyDescriptor Map HeapObject Trace)
    (map : Map) (object : HeapObject) : Trace × Int :=
  let object_size := D.SizeOf map object
  (D.IterateBody object object_size, object_size)

/-- FixedBodyVisitor over a BodyDescriptor (objects-visiting.h lines
136-143). The descriptor supplies a constant kSize and an
IterateBody(object); IterateBody returns void, so its observable effect is an
abstract Trace value. -/
structure FixedBodyDescriptor (HeapObject Trace : Type) where
  kSize : Int
  IterateBody : HeapObject → Trace

/-- FixedBodyVisitor::Visit (lines 139-142):
BodyDescriptor::IterateBody(object); return
static_cast<ReturnType>(BodyDescriptor::kSize). The result pairs the effect
of the one IterateBody call with the returned constant size. -/
def FixedBodyVisitor.Visit {Map HeapObject Trace : Type}
    (D : FixedBodyDescriptor HeapObject Trace)
    (_map : Map) (object : HeapObject) : Trace × Int :=
  (D.IterateBody object, D.kSize)

/-- Modelled from the spec: the body of StaticVisitorBase::GetVisitorId and
its helper GetVisitorIdForSize live in objects-visiting.cc, which is not
among the sources; only the declaration (objects-visiting.h lines 89-93) and
the ordering comment (lines 65-73) are. Spec 4.2: plain data shapes map
through id = base_id + (size_in_words - 2) for size_in_words in [2, N];
anything outside that range, or any shape flagged as having unboxed inline
fields, maps to the designated generic id instead of a specialized one. -/
def AssignId (base_id generic_id N : Nat) (size_in_words : Nat)
    (has_unboxed_fields : Bool) : Nat :=
  if has_unboxed_fields then generic_id
  else if 2 ≤ size_in_words ∧ size_in_words ≤ N then
    base_id + (size_in_words - 2)
  else generic_id

/-! ## Helper lemmas -/

/-- Contains tests exactly the bit of the element: the word and a power of
two is nonzero exactly when that bit of the word is set. -/
lemma AtomicEnumSet.contains_eq_testBit (s : AtomicEnumSet) (element : Nat) :
    s.Contains element = s.bits_.testBit element := by
  have h1 : AtomicEnumSet.Mask element = 2 ^ element := by
    simp [AtomicEnumSet.Mask, Nat.shiftLeft_eq]
  rw [AtomicEnumSet.Contains, AtomicEnumSet.ToIntegral, h1, Nat.and_two_pow]
  cases h : s.bits_.testBit element <;> simp [h, Nat.pow_eq_zero]

/-- With at least one unit of fuel, the sequential CAS loop of
ATOMIC_SET_WRITE commits on its first iteration. -/
lemma AtomicEnumSet.atomicSetWrite_succ (f : Nat → Nat) (fuel : Nat)
    (s : AtomicEnumSet) :
    AtomicEnumSet.AtomicSetWrite f (fuel + 1) s = some ⟨f s.bits_⟩ := by
  simp [AtomicEnumSet.AtomicSetWrite, AtomicEnumSet.ToIntegral]

/-- Each slot of the CopyFrom fold holds the source entry when its index was
visited, and the original destination entry otherwise. -/
lemma VisitorDispatchTable.foldl_store_callbacks {Callback : Type}
    (other : VisitorDispatchTable Callback) (l : List VisitorId) :
    ∀ (t : VisitorDispatchTable Callback) (j : VisitorId),
      ((l.foldl (fun acc i => acc.RelaxedStoreSlot i (other.callbacks_ i))
          t).callbacks_ j)
        = if j ∈ l then other.callbacks_ j else t.callbacks_ j := by
  induction l with
  | nil => intro t j; simp
  | cons i l ih =>
    intro t j
    simp only [List.foldl_cons, ih, List.mem_cons]
    by_cases hj : j ∈ l
    · simp [hj]
    · by_cases hji : j = i
      · subst hji
        simp [hj, VisitorDispatchTable.RelaxedStoreSlot, Function.update_apply]
      · simp [hj, hji, VisitorDispatchTable.RelaxedStoreSlot,
          Function.update_apply]

/-- AssignId on a shape without unboxed fields, as a single conditional. -/
lemma assignId_false_eq (base_id generic_id N s : Nat) :
    AssignId base_id generic_id N s false =
      if 2 ≤ s ∧ s ≤ N then base_id + (s - 2) else generic_id := by
  simp [AssignId]

/-! ## Claim theorems -/

/-- C9: every default-constructed atomic cell starts at zero: a fresh
AtomicNumber has Value 0, a fresh NoBarrierAtomicValue and AtomicValue hold
the zero of the type, and a default-constructed AtomicEnumSet is empty, with
Contains false for every element. -/
theorem default_constructed_cells_are_zero :
    AtomicNumber.mkDefault.Value = 0 ∧
    NoBarrierAtomicValue.mkDefault.Value = 0 ∧
    AtomicValue.mkDefault.Value = 0 ∧
    AtomicEnumSet.mkDefault.IsEmpty = true ∧
    ∀ element : Nat, AtomicEnumSet.mkDefault.Contains element = false := by
  refine ⟨rfl, rfl, rfl, rfl, fun element => ?_⟩
  rw [AtomicEnumSet.contains_eq_testBit]
  simp [AtomicEnumSet.mkDefault]

/-- C6: for a w-bit bitmask cell holding v, with bits inside the mask
(bits AND NOT mask = 0, the DCHECK on line 133), SetBits(bits, mask)
completes within any positive fuel and the cell then holds
(v AND NOT mask) OR bits; bitwise, every bit selected by the mask is replaced
by the corresponding bit of bits and every unmasked bit of v is preserved. -/
theorem atomicValue_setBits_replaces_masked_bits
    (w v bits mask fuel : Nat) (hfuel : 1 ≤ fuel)
    (hbits : bits &&& ((2 ^ w - 1) ^^^ mask) = 0) :
    AtomicValue.SetBits w bits mask fuel ⟨v⟩ =
      some ⟨(v &&& ((2 ^ w - 1) ^^^ mask)) ||| bits⟩ ∧
    ∀ i, i < w →
      ((v &&& ((2 ^ w - 1) ^^^ mask)) ||| bits).testBit i =
        if mask.testBit i then bits.testBit i else v.testBit i := by
  constructor
  · obtain ⟨f, rfl⟩ : ∃ f, fuel = f + 1 := ⟨fuel - 1, by omega⟩
    simp [AtomicValue.SetBits, AtomicValue.TrySetValue, AtomicValue.Value]
  · intro i hi
    have hiw : decide (i < w) = true := by simpa using hi
    have h0 : (bits &&& ((2 ^ w - 1) ^^^ mask)).testBit i = false := by
      simp [hbits]
    rw [Nat.testBit_and, Nat.testBit_xor, Nat.testBit_two_pow_sub_one, hiw]
      at h0
    rw [Nat.testBit_lor, Nat.testBit_and, Nat.testBit_xor,
      Nat.testBit_two_pow_sub_one, hiw]
    cases hm : mask.testBit i
    · simp [hm] at h0
      simp [h0]
    · simp [hm]

/-- Witness for C6, the concrete scenario of the spec: a cell holding 0b0001
after SetBits(0b0100, 0b1100) over 4-bit values holds 0b0101. -/
theorem atomicValue_setBits_replaces_masked_bits_witness :
    AtomicValue.SetBits 4 4 12 1 ⟨1⟩ = some ⟨5⟩ :=
  ((atomicValue_setBits_replaces_masked_bits 4 1 4 12 1 (by decide)
      (by decide)).1).trans (by decide)

/-- C8: the type-erased AsAtomic32::SetBits on a w-bit location holding v,
with bits inside the mask, returns false and leaves the location unchanged
when (v AND mask) = bits, and otherwise installs (v AND NOT mask) OR bits and
returns true. -/
theorem asAtomic32_setBits_skips_when_already_set
    (w v bits mask fuel : Nat) (hfuel : 1 ≤ fuel)
    (_hbits : bits &&& ((2 ^ w - 1) ^^^ mask) = 0) :
    ((v &&& mask) = bits →
      AsAtomic32.SetBits w bits mask fuel v = some (false, v)) ∧
    ((v &&& mask) ≠ bits →
      AsAtomic32.SetBits w bits mask fuel v =
        some (true, (v &&& ((2 ^ w - 1) ^^^ mask)) ||| bits)) := by
  obtain ⟨f, rfl⟩ : ∃ f, fuel = f + 1 := ⟨fuel - 1, by omega⟩
  constructor
  · intro h; simp [AsAtomic32.SetBits, h]
  · intro h; simp [AsAtomic32.SetBits, h]

/-- Witness for C8: over 4-bit values with bits = 0b0100 and mask = 0b1100, a
location holding 0b0101 already has the masked bits as needed, so the call
returns false without a write; a location holding 0b0001 does not, so the
call installs 0b0101 and returns true. -/
theorem asAtomic32_setBits_skips_when_already_set_witness :
    AsAtomic32.SetBits 4 4 12 1 5 = some (false, 5) ∧
    AsAtomic32.SetBits 4 4 12 1 1 = some (true, 5) := by
  constructor
  · exact (asAtomic32_setBits_skips_when_already_set 4 5 4 12 1 (by decide)
      (by decide)).1 (by decide)
  · exact ((asAtomic32_setBits_skips_when_already_set 4 1 4 12 1 (by decide)
      (by decide)).2 (by decide)).trans (by decide)

/-- C10: sequentially (positive fuel, so each CAS loop commits first try) the
atomic enum set behaves as a finite set over a w-bit word, for elements below
w as enforced by the STATIC_ASSERT on kLastValue: after Add(e) the set
contains e; after Remove(e) it does not; Add(e) and Remove(e) leave the
membership of every other element unchanged; Add(e) is idempotent; and Add
and Remove of distinct elements commute. -/
theorem atomicEnumSet_finite_set_semantics
    (w fuel : Nat) (hfuel : 1 ≤ fuel) (s : AtomicEnumSet)
    (e e' : Nat) (he : e < w) (he' : e' < w) :
    ((s.Add e fuel).map (fun t => t.Contains e) = some true) ∧
    ((s.Remove w e fuel).map (fun t => t.Contains e) = some false) ∧
    (e' ≠ e →
      (s.Add e fuel).map (fun t => t.Contains e') = some (s.Contains e')) ∧
    (e' ≠ e →
      (s.Remove w e fuel).map (fun t => t.Contains e') =
        some (s.Contains e')) ∧
    ((s.Add e fuel).bind (fun t => t.Add e fuel) = s.Add e fuel) ∧
    (e' ≠ e →
      (s.Add e fuel).bind (fun t => t.Remove w e' fuel) =
        (s.Remove w e' fuel).bind (fun t => t.Add e fuel)) := by
  obtain ⟨f, rfl⟩ : ∃ f, fuel = f + 1 := ⟨fuel - 1, by omega⟩
  have hmask : ∀ x : Nat, AtomicEnumSet.Mask x = 2 ^ x := by
    intro x; simp [AtomicEnumSet.Mask, Nat.shiftLeft_eq]
  have hew : decide (e < w) = true := by simpa using he
  refine ⟨?_, ?_, ?_, ?_, ?_, ?_⟩
  · rw [AtomicEnumSet.Add, AtomicEnumSet.atomicSetWrite_succ, Option.map_some']
    rw [AtomicEnumSet.contains_eq_testBit]
    simp [hmask, Nat.testBit_lor, Nat.testBit_two_pow]
  · rw [AtomicEnumSet.Remove, AtomicEnumSet.atomicSetWrite_succ,
      Option.map_some']
    rw [AtomicEnumSet.contains_eq_testBit]
    simp [hmask, Nat.testBit_and, Nat.testBit_xor,
      Nat.testBit_two_pow_sub_one, Nat.testBit_two_pow, hew]
  · intro hne
    rw [AtomicEnumSet.Add, AtomicEnumSet.atomicSetWrite_succ, Option.map_some']
    rw [AtomicEnumSet.contains_eq_testBit, AtomicEnumSet.contains_eq_testBit]
    simp [hmask, Nat.testBit_lor, Nat.testBit_two_pow, Ne.symm hne]
  · intro hne
    rw [AtomicEnumSet.Remove, AtomicEnumSet.atomicSetWrite_succ,
      Option.map_some']
    rw [AtomicEnumSet.contains_eq_testBit, AtomicEnumSet.contains_eq_testBit]
    have he'w : decide (e' < w) = true := by simpa using he'
    simp [hmask, Nat.testBit_and, Nat.testBit_xor,
      Nat.testBit_two_pow_sub_one, Nat.testBit_two_pow, he'w, Ne.symm hne]
  · rw [AtomicEnumSet.Add, AtomicEnumSet.atomicSetWrite_succ, Option.some_bind]
    rw [AtomicEnumSet.Add, AtomicEnumSet.atomicSetWrite_succ]
    refine congrArg some (congrArg AtomicEnumSet.mk ?_)
    apply Nat.eq_of_testBit_eq
    intro i
    simp [Nat.testBit_lor, Bool.or_assoc]
  · intro hne
    simp only [AtomicEnumSet.Add, AtomicEnumSet.Remove,
      AtomicEnumSet.atomicSetWrite_succ, Option.some_bind]
    refine congrArg some (congrArg AtomicEnumSet.mk ?_)
    apply Nat.eq_of_testBit_eq
    intro i
    simp only [Nat.testBit_lor, Nat.testBit_and, Nat.testBit_xor,
      Nat.testBit_two_pow_sub_one, hmask, Nat.testBit_two_pow]
    by_cases hie : e = i
    · subst hie
      simp [hne, Ne.symm hne, hew]
    · by_cases hie' : e' = i
      · subst hie'
        simp [hie]
      · simp [hie, hie']

/-- Witness for C10 at w = 8, fuel = 1, the set holding 0b0101, e = 1,
e2 = 2: Add 1 yields a set containing 1, Remove 1 yields one not containing
1, and Add 1 leaves membership of 2 (true in 0b0101) unchanged. -/
theorem atomicEnumSet_finite_set_semantics_witness :
    ((AtomicEnumSet.Add ⟨5⟩ 1 1).map (fun t => t.Contains 1) = some true) ∧
    ((AtomicEnumSet.Remove ⟨5⟩ 8 1 1).map (fun t => t.Contains 1) =
      some false) ∧
    ((AtomicEnumSet.Add ⟨5⟩ 1 1).map (fun t => t.Contains 2) = some true) := by
  have h := atomicEnumSet_finite_set_semantics 8 1 (by decide) ⟨5⟩ 1 2
    (by decide) (by decide)
  exact ⟨h.1, h.2.1, (h.2.2.1 (by decide)).trans (by decide)⟩

/-- C1: after dst.CopyFrom(src), GetVisitorById(id) on the destination
returns exactly the entry held by src at id, for every id in
[0, kVisitorIdCount); and CopyFrom is exactly the left fold of single-slot
Relaxed_Store operations over the ids in order, never a bulk raw copy. In
the embedding every slot of src holds an entry (the C++ array always holds a
word), so the registered-entries hypothesis of the claim is automatic. -/
theorem copyFrom_copies_every_slot {Callback : Type}
    (dst src : VisitorDispatchTable Callback) (id : VisitorId) :
    (dst.CopyFrom src).GetVisitorById id = src.GetVisitorById id ∧
    dst.CopyFrom src =
      (List.finRange kVisitorIdCount).foldl
        (fun acc i => acc.RelaxedStoreSlot i (src.callbacks_ i)) dst := by
  refine ⟨?_, rfl⟩
  rw [VisitorDispatchTable.CopyFrom, VisitorDispatchTable.GetVisitorById,
    VisitorDispatchTable.GetVisitorById,
    VisitorDispatchTable.foldl_store_callbacks]
  simp [List.mem_finRange]

/-- C7: Register is last-write-wins per id: after Register(id, e),
GetVisitorById(id) returns e, a later Register of the same id overrides an
earlier one, and registering at id leaves the entry at every other id
unchanged. -/
theorem register_last_write_wins {Callback : Type}
    (t : VisitorDispatchTable Callback) (id : VisitorId) (e e₀ : Callback) :
    ((t.Register id e).GetVisitorById id = e) ∧
    (((t.Register id e₀).Register id e).GetVisitorById id = e) ∧
    (∀ id' : VisitorId, id' ≠ id →
      (t.Register id e).GetVisitorById id' = t.GetVisitorById id') := by
  refine ⟨?_, ?_, ?_⟩
  · simp [VisitorDispatchTable.Register, VisitorDispatchTable.GetVisitorById]
  · simp [VisitorDispatchTable.Register, VisitorDispatchTable.GetVisitorById]
  · intro id' hne
    simp [VisitorDispatchTable.Register, VisitorDispatchTable.GetVisitorById,
      Function.update_apply, hne]

/-- Witness for C7: on the all-zero Nat table, Register 3 7 makes
GetVisitorById 3 return 7, re-registering 9 then 7 at 3 still returns 7, and
slot 4 still returns 0. -/
theorem register_last_write_wins_witness :
    ((VisitorDispatchTable.Register ⟨fun _ => 0⟩ ⟨3, by decide⟩
        7).GetVisitorById ⟨3, by decide⟩ = 7) ∧
    (((VisitorDispatchTable.Register ⟨fun _ => (0 : Nat)⟩ ⟨3, by decide⟩
        9).Register ⟨3, by decide⟩ 7).GetVisitorById ⟨3, by decide⟩ = 7) ∧
    ((VisitorDispatchTable.Register ⟨fun _ => (0 : Nat)⟩ ⟨3, by decide⟩
        7).GetVisitorById ⟨4, by decide⟩ = 0) := by
  have h := register_last_write_wins
    (⟨fun _ => (0 : Nat)⟩ : VisitorDispatchTable Nat) ⟨3, by decide⟩ 7 9
  exact ⟨h.1, h.2.1, (h.2.2 ⟨4, by decide⟩ (by decide)).trans rfl⟩

/-- C2: in a dispatch table whose deliberately-unhandled slot holds
UnreachableVisitor, the registration each flavor performs during its
initialization in objects-visiting.cc (modelled from the spec, the .cc not
being among the sources), GetVisitorById on that slot returns an entry whose
every invocation is the fatal UNREACHABLE outcome and which never produces a
usable size, rather than silently doing nothing. -/
theorem getVisitorById_unhandled_slot_is_fatal {Map HeapObject : Type}
    (t : VisitorDispatchTable (Map → HeapObject → VisitOutcome))
    (id : VisitorId)
    (hreg : t.callbacks_ id = StaticNewSpaceVisitor.UnreachableVisitor) :
    (t.GetVisitorById id = StaticNewSpaceVisitor.UnreachableVisitor) ∧
    (∀ m o, t.GetVisitorById id m o = VisitOutcome.fatal) ∧
    (∀ m o size, t.GetVisitorById id m o ≠ VisitOutcome.ok size) := by
  refine ⟨hreg, fun m o => ?_, fun m o size => ?_⟩
  · rw [VisitorDispatchTable.GetVisitorById, hreg]
    rfl
  · rw [VisitorDispatchTable.GetVisitorById, hreg]
    intro h
    exact VisitOutcome.noConfusion h

/-- Witness for C2: a table with every slot holding UnreachableVisitor: slot
0 resolves to an entry whose invocation is fatal. -/
theorem getVisitorById_unhandled_slot_is_fatal_witness :
    (⟨fun _ => StaticNewSpaceVisitor.UnreachableVisitor⟩ :
        VisitorDispatchTable (Unit → Unit → VisitOutcome)).GetVisitorById
      ⟨0, by decide⟩ () () = VisitOutcome.fatal :=
  (getVisitorById_unhandled_slot_is_fatal _ ⟨0, by decide⟩ rfl).2.1 () ()

/-- C4: for every map and object, FlexibleBodyVisitor::Visit first computes
object_size = BodyDescriptor::SizeOf(map, object), performs exactly one
IterateBody(object, object_size) call with exactly that size, and returns
exactly that computed size. -/
theorem flexibleBodyVisitor_visit_uses_computed_size
    {Map HeapObject Trace : Type}
    (D : FlexibleBodyDescriptor Map HeapObject Trace)
    (map : Map) (object : HeapObject) :
    (FlexibleBodyVisitor.Visit D map object).2 = D.SizeOf map object ∧
    (FlexibleBodyVisitor.Visit D map object).1 =
      D.IterateBody object (D.SizeOf map object) :=
  ⟨rfl, rfl⟩

/-- C5: for every map and object, FixedBodyVisitor::Visit performs exactly
one IterateBody(object) call and returns exactly the declared constant
BodyDescriptor::kSize, independent of the map and object it is given. -/
theorem fixedBodyVisitor_visit_returns_constant_size
    {Map HeapObject Trace : Type}
    (D : FixedBodyDescriptor HeapObject Trace)
    (map map₂ : Map) (object object₂ : HeapObject) :
    (FixedBodyVisitor.Visit D map object).1 = D.IterateBody object ∧
    (FixedBodyVisitor.Visit D map object).2 = D.kSize ∧
    (FixedBodyVisitor.Visit D map object).2 =
      (FixedBodyVisitor.Visit D map₂ object₂).2 :=
  ⟨rfl, rfl, rfl⟩

/-- C3: the visitor-identity size formula, modelled from the spec. For
size_in_words in [2, N] with no unboxed inline fields, AssignId returns
base_id + (size_in_words - 2), and over that interval it is a bijection onto
[base_id, base_id + (N - 2)]; every size_in_words > N, and every shape with
unboxed inline fields, maps to the generic id, which lies outside the
specialized interval whenever base_id + (N - 2) < generic_id, so such inputs
never receive a specialized id. -/
theorem assignId_specialized_range_bijection
    (base_id generic_id N : Nat) (hN : 2 ≤ N)
    (hgen : base_id + (N - 2) < generic_id) :
    (∀ s, 2 ≤ s → s ≤ N →
      AssignId base_id generic_id N s false = base_id + (s - 2)) ∧
    Set.BijOn (fun s => AssignId base_id generic_id N s false)
      (Set.Icc 2 N) (Set.Icc base_id (base_id + (N - 2))) ∧
    (∀ s, N < s → AssignId base_id generic_id N s false = generic_id) ∧
    (∀ s, AssignId base_id generic_id N s true = generic_id) ∧
    (∀ s, N < s →
      AssignId base_id generic_id N s false ∉
        Set.Icc base_id (base_id + (N - 2))) ∧
    (∀ s, AssignId base_id generic_id N s true ∉
        Set.Icc base_id (base_id + (N - 2))) := by
  have hfalse := assignId_false_eq base_id generic_id N
  have htrue : ∀ s, AssignId base_id generic_id N s true = generic_id := by
    intro s; simp [AssignId]
  have hspec : ∀ s, 2 ≤ s → s ≤ N →
      AssignId base_id generic_id N s false = base_id + (s - 2) := by
    intro s h2 hsN
    rw [hfalse]
    exact if_pos ⟨h2, hsN⟩
  have hbig : ∀ s, N < s →
      AssignId base_id generic_id N s false = generic_id := by
    intro s hNs
    rw [hfalse]
    exact if_neg (by omega)
  refine ⟨hspec, ⟨?_, ?_, ?_⟩, hbig, htrue, ?_, ?_⟩
  · intro s hs
    rw [Set.mem_Icc] at hs ⊢
    dsimp only
    rw [hspec s hs.1 hs.2]
    omega
  · intro s hs s₂ hs₂ heq
    rw [Set.mem_Icc] at hs hs₂
    dsimp only at heq
    rw [hspec s hs.1 hs.2, hspec s₂ hs₂.1 hs₂.2] at heq
    omega
  · intro y hy
    rw [Set.mem_Icc] at hy
    refine ⟨y - base_id + 2, ?_, ?_⟩
    · rw [Set.mem_Icc]; omega
    · dsimp only
      rw [hspec (y - base_id + 2) (by omega) (by omega)]
      omega
  · intro s hNs
    rw [hbig s hNs, Set.mem_Icc]
    omega
  · intro s
    rw [htrue s, Set.mem_Icc]
    omega

/-- Witness for C3, the concrete scenario of the spec: base_id = 5,
generic_id = 40, sizes 2..6, an object of 4 words receives id 5 + (4 - 2) =
7, a 7-word object and an unboxed-fields shape receive the generic id 40. -/
theorem assignId_specialized_range_bijection_witness :
    AssignId 5 40 6 4 false = 7 ∧
    AssignId 5 40 6 7 false = 40 ∧
    AssignId 5 40 6 4 true = 40 := by
  have h := assignId_specialized_range_bijection 5 40 6 (by decide) (by decide)
  exact ⟨(h.1 4 (by decide) (by decide)).trans (by decide),
    h.2.2.1 7 (by decide), h.2.2.2.1 4⟩

end V8
